import Mathlib

/-!
# Verification of the servo layout flow tree and actor primitive

Shallow embedding of `src/servo/layout/flow.rs` and `src/servo/util/actor.rs`.

Conventions:
* `Au` (app units) is modelled as unbounded `Int`; the spec treats numeric
  anomalies as out of scope for runtime guards, and the per-variant width
  arithmetic is supplied by collaborators outside this core.
* Rust `fail` (fatal task failure) is embedded as `Except.error` carrying the
  failure message; `Except.ok` is normal return.
* The `@FlowContext` pointer graph is embedded two ways, matching how the
  claims use it: traversal passes act on an inductive tree whose nodes carry
  their ordered children directly, while the tree-bookkeeping operations
  (`add_child`, `each_child`, `eq`) act on a store indexed by reference
  identity (`FlowRef`), mirroring `@`-box addresses.
-/

/-- App units (`gfx::geometry::Au`): layout lengths, modelled as integers. -/
abbrev Au := Int

/-- `geom::point::Point2D<Au>`. -/
structure Point2D where
  x : Au
  y : Au
deriving DecidableEq, Repr

/-- `geom::rect` size component. -/
structure Size2D where
  width : Au
  height : Au
deriving DecidableEq, Repr

/-- `geom::rect::Rect<Au>`: origin plus size. -/
structure Rect where
  origin : Point2D
  size : Size2D
deriving DecidableEq, Repr

/-- `Au::zero_rect()`: the all-zero rectangle. -/
def Au.zero_rect : Rect := ⟨⟨0, 0⟩, ⟨0, 0⟩⟩

/-- The data of a render box read by `flow.rs`: its debug id and the identity
of the document node it is bound to (`box.d().node`). Document nodes are
opaque identity-comparable handles, embedded as natural numbers. -/
structure RenderBoxData where
  id : Int
  node : Nat
deriving DecidableEq, Repr

/-- `RenderBox` is an external entity; the flow code stores, folds and
iterates references to it. Beyond the `d()` data it carries, modelled from the
spec, the intrinsic minimum/preferred widths consumed by width bubbling and a
flag recording whether a forced line break follows this box (the line-break
metadata of inline flows). -/
structure RenderBox where
  d : RenderBoxData
  boxMinWidth : Au
  boxPrefWidth : Au
  forcesBreak : Bool
deriving DecidableEq, Repr

/-- Modelled from the spec: `layout::block::BlockFlowData` — a block flow
carries at most one owned render box (`layout/block.rs` is not under `src/`). -/
structure BlockFlowData where
  box : Option RenderBox
deriving DecidableEq, Repr

/-- Modelled from the spec: `layout::root::RootFlowData` — a root flow carries
at most one owned render box (`layout/root.rs` is not under `src/`). -/
structure RootFlowData where
  box : Option RenderBox
deriving DecidableEq, Repr

/-- Modelled from the spec: `layout::inline::InlineFlowData` — an inline flow
carries an ordered sequence of owned render boxes; the line-break metadata is
carried by the boxes' `forcesBreak` flags (`layout/inline.rs` is not under
`src/`). -/
structure InlineFlowData where
  boxes : List RenderBox
deriving DecidableEq, Repr

/-- References to `@FlowContext` boxes: identity (address) of a managed box. -/
abbrev FlowRef := Nat

/-- Modelled from the spec: the parent/children linkage fields of
`util::tree::Tree<@FlowContext>` (`util/tree.rs` is not under `src/`):
a back-link to the parent and the ordered child sequence, identity-keyed. -/
structure TreeFields where
  parent : Option FlowRef
  children : List FlowRef
deriving DecidableEq, Repr

/-- Modelled from the spec: `tree::empty()` — empty linkage. -/
def tree.empty : TreeFields := ⟨none, []⟩

/-- `FlowData`: the common attributes of every flow variant. -/
structure FlowData where
  node : Option Nat
  tree : TreeFields
  id : Int
  min_width : Au
  pref_width : Au
  position : Rect
deriving DecidableEq, Repr

/-- The `FlowData(id: int)` constructor function of `flow.rs`. -/
def FlowData.new (id : Int) : FlowData :=
  { node := none
    tree := tree.empty
    id := id
    min_width := 0
    pref_width := 0
    position := Au.zero_rect }

/-- `FlowContext`: the tagged variants of a flow. For the traversal proofs the
children reached through the `@`-pointer tree are materialised as an explicit
ordered list on each node. -/
inductive FlowContext where
  | AbsoluteFlow (d : FlowData) (kids : List FlowContext)
  | BlockFlow (d : FlowData) (b : BlockFlowData) (kids : List FlowContext)
  | FloatFlow (d : FlowData) (kids : List FlowContext)
  | InlineBlockFlow (d : FlowData) (kids : List FlowContext)
  | InlineFlow (d : FlowData) (i : InlineFlowData) (kids : List FlowContext)
  | RootFlow (d : FlowData) (r : RootFlowData) (kids : List FlowContext)
  | TableFlow (d : FlowData) (kids : List FlowContext)

/-- `FlowContextType`: the closed set of seven flow tags. -/
inductive FlowContextType where
  | Flow_Absolute
  | Flow_Block
  | Flow_Float
  | Flow_InlineBlock
  | Flow_Inline
  | Flow_Root
  | Flow_Table
deriving DecidableEq, Repr

/-- `FlowContext::d(&self)`: the common data of any variant. -/
def FlowContext.d : FlowContext → FlowData
  | .AbsoluteFlow d _ => d
  | .BlockFlow d _ _ => d
  | .FloatFlow d _ => d
  | .InlineBlockFlow d _ => d
  | .InlineFlow d _ _ => d
  | .RootFlow d _ _ => d
  | .TableFlow d _ => d

/-- The ordered children of a node. -/
def FlowContext.kids : FlowContext → List FlowContext
  | .AbsoluteFlow _ kids => kids
  | .BlockFlow _ _ kids => kids
  | .FloatFlow _ kids => kids
  | .InlineBlockFlow _ kids => kids
  | .InlineFlow _ _ kids => kids
  | .RootFlow _ _ kids => kids
  | .TableFlow _ kids => kids

/-- The tag of a node. -/
def FlowContext.kind : FlowContext → FlowContextType
  | .AbsoluteFlow _ _ => .Flow_Absolute
  | .BlockFlow _ _ _ => .Flow_Block
  | .FloatFlow _ _ => .Flow_Float
  | .InlineBlockFlow _ _ => .Flow_InlineBlock
  | .InlineFlow _ _ _ => .Flow_Inline
  | .RootFlow _ _ _ => .Flow_Root
  | .TableFlow _ _ => .Flow_Table

/-- `FlowContext::inline(&self)`: payload accessor; fails on any non-inline
variant with the message of `flow.rs` line 111. -/
def FlowContext.inline : FlowContext → Except String InlineFlowData
  | .InlineFlow _ i _ => .ok i
  | f => .error ("Tried to access inline data of non-inline: f" ++ toString f.d.id)

/-- `FlowContext::block(&self)`: payload accessor; fails on any non-block
variant with the message of `flow.rs` line 118. -/
def FlowContext.block : FlowContext → Except String BlockFlowData
  | .BlockFlow _ b _ => .ok b
  | f => .error ("Tried to access block data of non-block: f" ++ toString f.d.id)

/-- `FlowContext::root(&self)`: payload accessor; fails on any non-root
variant with the message of `flow.rs` line 125. -/
def FlowContext.root : FlowContext → Except String RootFlowData
  | .RootFlow _ r _ => .ok r
  | f => .error ("Tried to access root data of non-root: f" ++ toString f.d.id)

/-- The render boxes directly owned by a node: zero-or-one for Root/Block, the
ordered sequence for Inline, none for the other variants. -/
def FlowContext.nodeBoxes : FlowContext → List RenderBox
  | .BlockFlow _ b _ => b.box.toList
  | .RootFlow _ r _ => r.box.toList
  | .InlineFlow _ i _ => i.boxes
  | _ => []

mutual

/-- All nodes of a tree: the node itself followed by the nodes of its
children, in tree order. -/
def FlowContext.allNodes : FlowContext → List FlowContext
  | .AbsoluteFlow d kids => .AbsoluteFlow d kids :: allNodesL kids
  | .BlockFlow d b kids => .BlockFlow d b kids :: allNodesL kids
  | .FloatFlow d kids => .FloatFlow d kids :: allNodesL kids
  | .InlineBlockFlow d kids => .InlineBlockFlow d kids :: allNodesL kids
  | .InlineFlow d i kids => .InlineFlow d i kids :: allNodesL kids
  | .RootFlow d r kids => .RootFlow d r kids :: allNodesL kids
  | .TableFlow d kids => .TableFlow d kids :: allNodesL kids

/-- All nodes of a forest, in order. -/
def allNodesL : List FlowContext → List FlowContext
  | [] => []
  | k :: ks => FlowContext.allNodes k ++ allNodesL ks

end

/-- Intrinsic minimum width of an optional owned box (absent box contributes
nothing). -/
def optBoxMinWidth : Option RenderBox → Au
  | some bx => bx.boxMinWidth
  | none => 0

/-- Intrinsic preferred width of an optional owned box. -/
def optBoxPrefWidth : Option RenderBox → Au
  | some bx => bx.boxPrefWidth
  | none => 0

/-- Fold of `max` over a list of widths, seeded with zero. -/
def maxOf (xs : List Au) : Au := xs.foldl max 0

/-- Accumulator for inline width bubbling: the minimum width so far, the
preferred width of the completed lines so far, and the preferred width
accumulated on the current line. -/
structure InlineAcc where
  minW : Au
  prefW : Au
  linePref : Au
deriving DecidableEq, Repr

/-- Modelled from the spec: one step of inline width accumulation — the box
widens the current line; a forced break completes the line. -/
def inlineStep (acc : InlineAcc) (b : RenderBox) : InlineAcc :=
  let m := max acc.minW b.boxMinWidth
  let line := acc.linePref + b.boxPrefWidth
  if b.forcesBreak then ⟨m, max acc.prefW line, 0⟩ else ⟨m, acc.prefW, line⟩

/-- Modelled from the spec: `bubble_widths_inline` — accumulate preferred
widths along a line, forced breaks contributing new lines; the minimum width
is the widest single box. Returns `(min_width, pref_width)`. -/
def inlineBubbleWidths (boxes : List RenderBox) : Au × Au :=
  let acc := boxes.foldl inlineStep ⟨0, 0, 0⟩
  (acc.minW, max acc.prefW acc.linePref)

/-- Modelled from the spec: `bubble_widths_root` — the root adopts its single
child's widths (zero when it has no child yet). -/
def rootAdopt (ks : List FlowContext) : Au × Au :=
  match ks with
  | [] => (0, 0)
  | c :: _ => (c.d.min_width, c.d.pref_width)

mutual

/-- `FlowContext::bubble_widths` (`flow.rs` lines 129–136): dispatch on the
variant — Block/Inline/Root run their pass, every other variant fails fatally
with the message of line 134. The per-variant math (`bubble_widths_block`,
`bubble_widths_inline`, `bubble_widths_root` live outside `src/`) is modelled
from the spec: post-order, children before parent; Block takes the max across
children plus its own intrinsic box width; Inline accumulates along a line
with forced breaks contributing new lines; Root adopts its single child's
widths. The result is the tree with `min_width`/`pref_width` resolved. -/
def FlowContext.bubble_widths : FlowContext → Except String FlowContext
  | .BlockFlow d b kids =>
      match bubble_list kids with
      | .error e => .error e
      | .ok kids' =>
          .ok (.BlockFlow
            { d with
              min_width := maxOf (kids'.map (fun k => k.d.min_width)) + optBoxMinWidth b.box
              pref_width := maxOf (kids'.map (fun k => k.d.pref_width)) + optBoxPrefWidth b.box }
            b kids')
  | .InlineFlow d i kids =>
      match bubble_list kids with
      | .error e => .error e
      | .ok kids' =>
          .ok (.InlineFlow
            { d with
              min_width := (inlineBubbleWidths i.boxes).1
              pref_width := (inlineBubbleWidths i.boxes).2 }
            i kids')
  | .RootFlow d r kids =>
      match bubble_list kids with
      | .error e => .error e
      | .ok kids' =>
          .ok (.RootFlow
            { d with
              min_width := (rootAdopt kids').1
              pref_width := (rootAdopt kids').2 }
            r kids')
  | f => .error ("Tried to bubble_widths of flow: f" ++ toString f.d.id)

/-- Width bubbling over an ordered child list; the first fatal failure aborts. -/
def bubble_list : List FlowContext → Except String (List FlowContext)
  | [] => .ok []
  | k :: ks =>
      match FlowContext.bubble_widths k with
      | .error e => .error e
      | .ok k' =>
          match bubble_list ks with
          | .error e => .error e
          | .ok ks' => .ok (k' :: ks')

end

/-- A paint primitive: which box it was derived from and where it is painted
(the offset accumulated from all ancestor positions). -/
structure DisplayItem where
  boxId : Int
  origin : Point2D
deriving DecidableEq, Repr

/-- Component-wise point addition. -/
def pointAdd (p q : Point2D) : Point2D := ⟨p.x + q.x, p.y + q.y⟩

mutual

/-- `FlowContext::build_display_list_recurse` (`flow.rs` lines 156–166):
dispatch on the variant — Root/Block/Inline build their display items, every
other variant fails fatally with the message of line 164. The per-variant
builders (`build_display_list_root`/`_block`/`_inline` live outside `src/`)
are modelled from the spec: emit the node's own primitives derived from its
owned render boxes, then recurse into the children in tree order, each child
receiving an offset accumulated from all ancestor positions. -/
def FlowContext.build_display_list_recurse :
    FlowContext → Rect → Point2D → Except String (List DisplayItem)
  | .RootFlow d r kids, dirty, offset =>
      match bdl_list kids dirty offset with
      | .error e => .error e
      | .ok items =>
          .ok (((FlowContext.RootFlow d r kids).nodeBoxes.map
            (fun b => DisplayItem.mk b.d.id offset)) ++ items)
  | .BlockFlow d b kids, dirty, offset =>
      match bdl_list kids dirty offset with
      | .error e => .error e
      | .ok items =>
          .ok (((FlowContext.BlockFlow d b kids).nodeBoxes.map
            (fun bx => DisplayItem.mk bx.d.id offset)) ++ items)
  | .InlineFlow d i kids, dirty, offset =>
      match bdl_list kids dirty offset with
      | .error e => .error e
      | .ok items =>
          .ok (((FlowContext.InlineFlow d i kids).nodeBoxes.map
            (fun b => DisplayItem.mk b.d.id offset)) ++ items)
  | f, _, _ => .error ("Tried to build_display_list_recurse of flow: f" ++ toString f.d.id)

/-- Display-list building over an ordered child list; each child receives the
incoming offset extended by its own position origin. -/
def bdl_list : List FlowContext → Rect → Point2D → Except String (List DisplayItem)
  | [], _, _ => .ok []
  | c :: cs, dirty, offset =>
      match FlowContext.build_display_list_recurse c dirty (pointAdd offset c.d.position.origin) with
      | .error e => .error e
      | .ok items =>
          match bdl_list cs dirty offset with
          | .error e => .error e
          | .ok rest => .ok (items ++ rest)

end

/-- `FlowContext::debug_str` (`flow.rs` lines 258–283): a human-readable,
non-machine-stable rendering of one node (`%?` debug prints are rendered as
plain text). -/
def FlowContext.debug_str (f : FlowContext) : String :=
  let rendered :=
    match f with
    | .InlineFlow _ i _ =>
        (i.boxes.foldl (fun s box => s ++ " b" ++ toString box.d.id)
          "InlineFlow(children=") ++ ")"
    | .BlockFlow _ b _ =>
        match b.box with
        | some box => "BlockFlow(box=b" ++ toString box.d.id ++ ")"
        | none => "BlockFlow"
    | .RootFlow _ r _ =>
        match r.box with
        | some box => "RootFlo(box=b" ++ toString box.d.id ++ ")"
        | none => "RootFlow"
    | _ => "(Unknown flow)"
  "f" ++ toString f.d.id ++ " " ++ rendered

/-- The `"---- "` indentation blocks prefixed per nesting level. -/
def dashes : Nat → String
  | 0 => ""
  | n + 1 => "---- " ++ dashes n

/-- The single line `dump_indent` prints for one node: `"|"`, one `"---- "`
block per indent level, then the node's `debug_str`. -/
def dumpLine (f : FlowContext) (indent : Nat) : String :=
  "|" ++ dashes indent ++ f.debug_str

mutual

/-- `FlowContext::dump_indent` (`flow.rs` lines 241–256): emit one line for
this node, then recurse into each child with one more indent level. The
embedding returns the emitted lines; the tree is not touched. -/
def FlowContext.dump_indent : FlowContext → Nat → List String
  | .AbsoluteFlow d kids, n =>
      dumpLine (.AbsoluteFlow d kids) n :: dump_indent_list kids (n + 1)
  | .BlockFlow d b kids, n =>
      dumpLine (.BlockFlow d b kids) n :: dump_indent_list kids (n + 1)
  | .FloatFlow d kids, n =>
      dumpLine (.FloatFlow d kids) n :: dump_indent_list kids (n + 1)
  | .InlineBlockFlow d kids, n =>
      dumpLine (.InlineBlockFlow d kids) n :: dump_indent_list kids (n + 1)
  | .InlineFlow d i kids, n =>
      dumpLine (.InlineFlow d i kids) n :: dump_indent_list kids (n + 1)
  | .RootFlow d r kids, n =>
      dumpLine (.RootFlow d r kids) n :: dump_indent_list kids (n + 1)
  | .TableFlow d kids, n =>
      dumpLine (.TableFlow d kids) n :: dump_indent_list kids (n + 1)

/-- The dump lines of an ordered child list. -/
def dump_indent_list : List FlowContext → Nat → List String
  | [], _ => []
  | k :: ks, n => FlowContext.dump_indent k n ++ dump_indent_list ks n

end

/-- `FlowContext::dump` (`flow.rs` lines 236–238): dump starting at indent 0. -/
def FlowContext.dump (f : FlowContext) : List String :=
  f.dump_indent 0

/-- `FlowContext::foldl_all_boxes` (`flow.rs` lines 169–177): fold over the
boxes owned by the node — zero-or-one for Root/Block (`option::map_default`),
the ordered sequence for Inline; fatal on every other variant (`%?` rendered
as the node id). -/
def FlowContext.foldl_all_boxes {B : Type} (f : FlowContext) (seed : B)
    (cb : B → RenderBox → B) : Except String B :=
  match f with
  | .RootFlow _ r _ =>
      .ok (match r.box with | some box => cb seed box | none => seed)
  | .BlockFlow _ b _ =>
      .ok (match b.box with | some box => cb seed box | none => seed)
  | .InlineFlow _ i _ => .ok (i.boxes.foldl cb seed)
  | f => .error ("Don\x27t know how to iterate node\x27s RenderBoxes for f" ++ toString f.d.id)

/-- `FlowContext::foldl_boxes_for_node` (`flow.rs` lines 179–185): fold over
all owned boxes, feeding `cb` only the boxes bound to the given document node. -/
def FlowContext.foldl_boxes_for_node {B : Type} (f : FlowContext) (node : Nat)
    (seed : B) (cb : B → RenderBox → B) : Except String B :=
  f.foldl_all_boxes seed (fun acc box => if box.d.node == node then cb acc box else acc)

/-- `FlowContext::iter_all_boxes` (`flow.rs` lines 187–194): the embedding
returns the ordered list of boxes handed to the callback. -/
def FlowContext.iter_all_boxes (f : FlowContext) : Except String (List RenderBox) :=
  match f with
  | .RootFlow _ r _ => .ok r.box.toList
  | .BlockFlow _ b _ => .ok b.box.toList
  | .InlineFlow _ i _ => .ok i.boxes
  | f => .error ("Don\x27t know how to iterate node\x27s RenderBoxes for f" ++ toString f.d.id)

/-- `FlowContext::iter_boxes_for_node` (`flow.rs` lines 196–201): iterate all
owned boxes, invoking the callback only on boxes bound to the given node; the
embedding returns the boxes the callback receives. -/
def FlowContext.iter_boxes_for_node (f : FlowContext) (node : Nat) :
    Except String (List RenderBox) :=
  match f.iter_all_boxes with
  | .error e => .error e
  | .ok l => .ok (l.filter (fun box => box.d.node == node))

/-! ## The identity-keyed store view of the flow tree

`@FlowContext` boxes are addressed by `FlowRef` identity; a store maps each
reference to the stored node. `FlowTree`'s operations act on the linkage
fields (`d().tree`) of the stored nodes. -/

/-- A stored flow node: its tag and common data (the linkage lives in
`data.tree`; payloads play no role in tree bookkeeping). -/
structure StoredFlow where
  kind : FlowContextType
  data : FlowData
deriving DecidableEq, Repr

/-- The heap of `@FlowContext` boxes, indexed by reference identity. -/
abbrev FlowStore := FlowRef → StoredFlow

/-- Point update of a store at one reference. -/
def updateStore (s : FlowStore) (r : FlowRef) (n : StoredFlow) : FlowStore :=
  fun x => if x = r then n else s x

/-- `core::managed::ptr_eq`: identity (address) equality of two managed boxes. -/
def managed.ptr_eq (a b : FlowRef) : Bool := a == b

/-- `FlowTree::eq` (`flow.rs` line 227): node equality for tree bookkeeping is
pointer identity, never structural comparison of contents. -/
def FlowTree.eq (a b : FlowRef) : Bool := managed.ptr_eq a b

/-- Modelled from the spec: `tree::add_child` (`util/tree.rs` is not under
`src/`), as called by `FlowTree::add_child` (`flow.rs` lines 220–222) —
appends `child` to `parent`'s ordered child sequence and records the
back-link from `child` to `parent`. -/
def FlowTree.add_child (s : FlowStore) (parent child : FlowRef) : FlowStore :=
  let p := s parent
  let s1 := updateStore s parent
    { p with data := { p.data with tree :=
        { p.data.tree with children := p.data.tree.children ++ [child] } } }
  let c := s1 child
  updateStore s1 child
    { c with data := { c.data with tree :=
        { c.data.tree with parent := some parent } } }

/-- The visit sequence of an early-terminating child walk: each child is
visited in order; a child on which the visitor returns `false` is the last
one visited. -/
def eachChildGo (v : FlowRef → Bool) : List FlowRef → List FlowRef
  | [] => []
  | c :: cs => c :: (if v c then eachChildGo v cs else [])

/-- Modelled from the spec: `tree::each_child` as called by
`FlowTree::each_child` (`flow.rs` lines 208–210) — invokes the visitor once
per child in insertion order, stopping early when the visitor returns
`false`. The embedding returns the ordered sequence of children the visitor
is invoked on. -/
def FlowTree.each_child (s : FlowStore) (ctx : FlowRef) (v : FlowRef → Bool) :
    List FlowRef :=
  eachChildGo v (s ctx).data.tree.children

/-! ## The actor primitive

`util/actor.rs` builds on `pipes::stream`: an unbounded FIFO channel (the
spec's ordering contract: messages sent through one handle arrive in send
order, each send atomic). A spawned unit is embedded as the channel queue
plus the liveness of its receive loop; `handle` runs over the private state
built by the factory. -/

/-- One spawned execution unit with message type `M` and private state `A`:
the pending FIFO queue of its channel, whether its receive loop is still
running, and the private state the factory built. -/
structure ActorSys (M A : Type) where
  state : A
  queue : List M
  alive : Bool

/-- Observable events of a unit: the factory ran, or `handle` was invoked on
a message. -/
inductive ActorEvent (M : Type) where
  | factoryRun
  | handled (m : M)
deriving DecidableEq, Repr

/-- The receive loop of `spawn` (`actor.rs` lines 35–40): pull one message at
a time, dispatch to `handle`, stop when `handle` returns `false`. On an empty
queue the loop blocks on `recv` (still alive). Returns the events in order,
whether the loop is still alive, and the messages left unconsumed. -/
def runLoop {M A : Type} (handle : A → M → Bool) (a : A) :
    List M → List (ActorEvent M) × Bool × List M
  | [] => ([], true, [])
  | m :: rest =>
      if handle a m then
        let r := runLoop handle a rest
        (.handled m :: r.1, r.2.1, r.2.2)
      else
        ([.handled m], false, rest)

/-- `spawn` (`actor.rs` lines 31–46): invoke the factory once to build the
private state, then run the receive loop over the messages sent through the
returned handle. Returns the full event trace (factory first), the loop's
liveness, and the unconsumed messages. -/
def spawnRun {M A : Type} (factory : Unit → A) (handle : A → M → Bool)
    (msgs : List M) : List (ActorEvent M) × Bool × List M :=
  let a := factory ()
  let r := runLoop handle a msgs
  (.factoryRun :: r.1, r.2.1, r.2.2)

/-- `ActorRef::send` (`actor.rs` lines 20–22): hand the message to the
channel (`self.chan.send(move msg)`). The call returns unit — the enqueue is
unconditional and no outcome is reported back. -/
def ActorRef.send {M A : Type} (sys : ActorSys M A) (msg : M) : ActorSys M A × Unit :=
  ({ sys with queue := sys.queue ++ [msg] }, ())

/-- `SharedActorRef::send` (`actor.rs` lines 53–55): identical hand-off into
the same channel through a cloneable handle. -/
def SharedActorRef.send {M A : Type} (sys : ActorSys M A) (msg : M) : ActorSys M A × Unit :=
  ({ sys with queue := sys.queue ++ [msg] }, ())

/-- The events a unit produces from its pending queue: a terminated unit (its
receive loop has exited) processes nothing. -/
def drainEvents {M A : Type} (handle : A → M → Bool) (sys : ActorSys M A) :
    List (ActorEvent M) :=
  if sys.alive then (runLoop handle sys.state sys.queue).1 else []

/-! ## Theorems -/

/-- C10: for every id, the `FlowData` constructor returns a node state with no
document node, an empty child tree, `min_width = 0`, `pref_width = 0`, and a
zero position rectangle; in particular `min_width ≤ pref_width` already holds
at construction. -/
theorem flowData_new_initial_state (id : Int) :
    FlowData.new id =
      { node := none, tree := ⟨none, []⟩, id := id, min_width := 0,
        pref_width := 0, position := ⟨⟨0, 0⟩, ⟨0, 0⟩⟩ } ∧
    (FlowData.new id).min_width ≤ (FlowData.new id).pref_width :=
  ⟨rfl, le_refl 0⟩

/-- C9: the debug dump of a Root node with no children produces exactly one
line of output; the dump is a pure function of the tree (its only product is
the returned lines). -/
theorem dump_root_no_children_one_line (d : FlowData) (r : RootFlowData) :
    FlowContext.dump (.RootFlow d r []) = [dumpLine (.RootFlow d r []) 0] ∧
    (FlowContext.dump (.RootFlow d r [])).length = 1 := by
  constructor
  · simp [FlowContext.dump, FlowContext.dump_indent, dump_indent_list]
  · simp [FlowContext.dump, FlowContext.dump_indent, dump_indent_list]

/-- C8: `FlowTree::eq` is identity equality, never structural: it holds
exactly when the two references are the same box, every node compares equal
to itself, and two distinct nodes with identical stored contents compare
unequal. -/
theorem flowTree_eq_is_identity (a b : FlowRef) :
    (FlowTree.eq a b = true ↔ a = b) ∧
    FlowTree.eq a a = true ∧
    (∀ s : FlowStore, s a = s b → a ≠ b → FlowTree.eq a b = false) := by
  refine ⟨by simp [FlowTree.eq, managed.ptr_eq], by simp [FlowTree.eq, managed.ptr_eq], ?_⟩
  intro s _hcontents hne
  simp [FlowTree.eq, managed.ptr_eq]
  exact hne

/-- Witness for C8: references 0 and 1 with identical stored contents compare
unequal; reference 0 compares equal to itself. -/
theorem flowTree_eq_is_identity_witness :
    FlowTree.eq 0 1 = false ∧ FlowTree.eq 0 0 = true :=
  ⟨(flowTree_eq_is_identity 0 1).2.2 (fun _ => ⟨.Flow_Root, FlowData.new 0⟩) rfl
      (by decide),
    (flowTree_eq_is_identity 0 0).2.1⟩

/-- C3 (amended): each payload accessor returns the payload exactly on its
matching variant, and on every other variant fails fatally with a message
identifying the node id and the expected variant, stating only that the node
is not of that variant (the actual variant is not named). -/
theorem payload_accessors_spec (f : FlowContext) :
    (∀ d i kids, f = .InlineFlow d i kids → f.inline = .ok i) ∧
    (f.kind ≠ .Flow_Inline →
      f.inline = .error ("Tried to access inline data of non-inline: f" ++ toString f.d.id)) ∧
    (∀ d b kids, f = .BlockFlow d b kids → f.block = .ok b) ∧
    (f.kind ≠ .Flow_Block →
      f.block = .error ("Tried to access block data of non-block: f" ++ toString f.d.id)) ∧
    (∀ d r kids, f = .RootFlow d r kids → f.root = .ok r) ∧
    (f.kind ≠ .Flow_Root →
      f.root = .error ("Tried to access root data of non-root: f" ++ toString f.d.id)) := by
  cases f <;>
    simp [FlowContext.inline, FlowContext.block, FlowContext.root,
      FlowContext.kind, FlowContext.d]

/-- Witness for C3 (amended): on an inline node the accessor returns the
payload; on a table node it fails with the message carrying the node id. -/
theorem payload_accessors_spec_witness :
    FlowContext.inline (.InlineFlow (FlowData.new 2) ⟨[]⟩ []) = .ok ⟨[]⟩ ∧
    FlowContext.inline (.TableFlow (FlowData.new 9) []) =
      .error ("Tried to access inline data of non-inline: f" ++ toString (9 : Int)) :=
  ⟨(payload_accessors_spec (.InlineFlow (FlowData.new 2) ⟨[]⟩ [])).1 _ _ _ rfl,
    by
      have h := (payload_accessors_spec (.TableFlow (FlowData.new 9) [])).2.1 (by decide)
      simpa [FlowContext.d, FlowData.new] using h⟩

/-- C3 counterexample: the failure message does not identify the actual
variant — an Absolute node and a Table node of the same id are different
variants yet produce the identical failure message from the inline accessor,
so the message cannot distinguish the actual variant. -/
theorem payload_accessor_message_counterexample :
    FlowContext.kind (.AbsoluteFlow (FlowData.new 7) []) ≠
      FlowContext.kind (.TableFlow (FlowData.new 7) []) ∧
    FlowContext.inline (.AbsoluteFlow (FlowData.new 7) []) =
      FlowContext.inline (.TableFlow (FlowData.new 7) []) ∧
    FlowContext.inline (.AbsoluteFlow (FlowData.new 7) []) =
      .error "Tried to access inline data of non-inline: f7" := by
  refine ⟨by decide, rfl, rfl⟩

/-- C2 counterexample: sending to a terminated unit (receive loop exited) is
indistinguishable to the caller from sending to a live one — both `send`s
return unit, so no explicit failure outcome reaches the caller; the message
is enqueued and, the unit being terminated, is never handled: a silent drop. -/
theorem send_terminated_counterexample :
    (⟨(), [], false⟩ : ActorSys Nat Unit).alive = false ∧
    (ActorRef.send (⟨(), [], false⟩ : ActorSys Nat Unit) 7).2 =
      (ActorRef.send (⟨(), [], true⟩ : ActorSys Nat Unit) 7).2 ∧
    (SharedActorRef.send (⟨(), [], false⟩ : ActorSys Nat Unit) 7).2 =
      (ActorRef.send (⟨(), [], true⟩ : ActorSys Nat Unit) 7).2 ∧
    (ActorRef.send (⟨(), [], false⟩ : ActorSys Nat Unit) 7).1.queue = [7] ∧
    drainEvents (fun _ _ => true) (ActorRef.send (⟨(), [], false⟩ : ActorSys Nat Unit) 7).1 = [] :=
  ⟨rfl, rfl, rfl, rfl, rfl⟩

/-- C2 (amended): sending to a terminated unit returns no failure outcome —
both `ActorRef::send` and `SharedActorRef::send` return unit unconditionally,
exactly as for a live unit; the message is handed to the queue and a
terminated unit never processes it (it is silently dropped rather than
reported). -/
theorem send_terminated_amended {M A : Type} (handle : A → M → Bool)
    (sys : ActorSys M A) (msg : M) (h : sys.alive = false) :
    (ActorRef.send sys msg).2 = () ∧
    (SharedActorRef.send sys msg).2 = () ∧
    (ActorRef.send sys msg).1.queue = sys.queue ++ [msg] ∧
    (SharedActorRef.send sys msg).1.queue = sys.queue ++ [msg] ∧
    drainEvents handle (ActorRef.send sys msg).1 = [] := by
  refine ⟨rfl, rfl, rfl, rfl, ?_⟩
  simp [drainEvents, ActorRef.send, h]

/-- Witness for C2 (amended): a concrete terminated unit drops a sent
message without processing it. -/
theorem send_terminated_amended_witness :
    drainEvents (fun (_ : Unit) (_ : Nat) => true)
      (ActorRef.send (⟨(), [], false⟩ : ActorSys Nat Unit) 3).1 = [] :=
  (send_terminated_amended (fun _ _ => true) ⟨(), [], false⟩ 3 rfl).2.2.2.2

/-- The receive loop handles a run of accepted messages in send order, then
exactly the first rejected message, then exits, leaving the rest unconsumed. -/
theorem runLoop_ordered {M A : Type} (handle : A → M → Bool) (a : A)
    (ms es : List M) (stop : M)
    (hms : ∀ m ∈ ms, handle a m = true) (hstop : handle a stop = false) :
    runLoop handle a (ms ++ stop :: es) =
      (ms.map ActorEvent.handled ++ [ActorEvent.handled stop], false, es) := by
  induction ms with
  | nil => simp [runLoop, hstop]
  | cons m ms ih =>
      have hm : handle a m = true := hms m (List.mem_cons_self m ms)
      have ih' := ih (fun x hx => hms x (List.mem_cons_of_mem m hx))
      simp [runLoop, hm, ih']

/-- C4: spawning a unit and sending N ordinary messages followed by one stop
message through one exclusive handle invokes `handle` on exactly the N
non-stop messages in send order, then exactly once on the stop message, after
which the unit terminates and processes no further messages; the factory runs
exactly once, before any message is handled. -/
theorem spawn_processes_messages_in_order {M A : Type} (factory : Unit → A)
    (handle : A → M → Bool) (ms es : List M) (stop : M)
    (hms : ∀ m ∈ ms, handle (factory ()) m = true)
    (hstop : handle (factory ()) stop = false) :
    spawnRun factory handle (ms ++ stop :: es) =
      (.factoryRun :: (ms.map ActorEvent.handled ++ [ActorEvent.handled stop]),
        false, es) := by
  simp [spawnRun, runLoop_ordered handle (factory ()) ms es stop hms hstop]

/-- Witness for C4: a unit that stops on message 0 handles `[1, 2]` in order,
then 0, terminates, and leaves `[5]` unprocessed. -/
theorem spawn_processes_messages_in_order_witness :
    spawnRun (fun _ => ()) (fun _ (m : Nat) => m != 0) ([1, 2] ++ 0 :: [5]) =
      (.factoryRun :: ([1, 2].map ActorEvent.handled ++ [ActorEvent.handled 0]),
        false, [5]) :=
  spawn_processes_messages_in_order (fun _ => ()) (fun _ m => m != 0) [1, 2] [5] 0
    (by decide) (by decide)


/-- Folding with the node-guarded callback used by `foldl_boxes_for_node`
equals folding the filtered box list. -/
theorem foldl_node_filter {B : Type} (cb : B → RenderBox → B) (node : Nat) :
    ∀ (l : List RenderBox) (seed : B),
      l.foldl (fun acc box => if box.d.node == node then cb acc box else acc) seed =
        (l.filter (fun box => box.d.node == node)).foldl cb seed := by
  intro l
  induction l with
  | nil => intro seed; rfl
  | cons x xs ih =>
      intro seed
      by_cases hb : (x.d.node == node) = true
      · simp only [List.foldl_cons, List.filter_cons, if_pos hb]
        exact ih (cb seed x)
      · simp only [List.foldl_cons, List.filter_cons, if_neg hb]
        exact ih seed

/-- C7: the box-iteration helpers fold/iterate over zero-or-one owned box for
Root and Block nodes and over the ordered box sequence for Inline nodes, fail
fatally on every other variant, and the filtered variants visit exactly the
boxes whose bound document-node identity equals the given node, in the same
order. -/
theorem box_iteration_spec {B : Type} (f : FlowContext) (node : Nat) (seed : B)
    (cb : B → RenderBox → B) :
    (∀ d r kids, f = .RootFlow d r kids →
      f.iter_all_boxes = .ok r.box.toList ∧
      f.foldl_all_boxes seed cb = .ok (r.box.toList.foldl cb seed)) ∧
    (∀ d b kids, f = .BlockFlow d b kids →
      f.iter_all_boxes = .ok b.box.toList ∧
      f.foldl_all_boxes seed cb = .ok (b.box.toList.foldl cb seed)) ∧
    (∀ d i kids, f = .InlineFlow d i kids →
      f.iter_all_boxes = .ok i.boxes ∧
      f.foldl_all_boxes seed cb = .ok (i.boxes.foldl cb seed)) ∧
    (f.kind ≠ .Flow_Root → f.kind ≠ .Flow_Block → f.kind ≠ .Flow_Inline →
      (∃ e, f.iter_all_boxes = .error e) ∧
      (∃ e, f.foldl_all_boxes seed cb = .error e) ∧
      (∃ e, f.iter_boxes_for_node node = .error e) ∧
      (∃ e, f.foldl_boxes_for_node node seed cb = .error e)) ∧
    (∀ l, f.iter_all_boxes = .ok l →
      f.iter_boxes_for_node node = .ok (l.filter (fun box => box.d.node == node)) ∧
      f.foldl_boxes_for_node node seed cb =
        .ok ((l.filter (fun box => box.d.node == node)).foldl cb seed)) := by
  cases f with
  | RootFlow d r kids =>
      obtain ⟨box⟩ := r
      refine ⟨?_, by simp, by simp, by simp [FlowContext.kind], ?_⟩
      · intro d' r' kids' h
        cases h
        cases box <;> exact ⟨rfl, rfl⟩
      · cases box with
        | none =>
            intro l hl
            have hl' : l = [] := by
              simpa [FlowContext.iter_all_boxes] using hl.symm
            subst hl'
            exact ⟨rfl, rfl⟩
        | some bx =>
            intro l hl
            have hl' : l = [bx] := by
              simpa [FlowContext.iter_all_boxes] using hl.symm
            subst hl'
            refine ⟨rfl, ?_⟩
            by_cases hb : bx.d.node == node <;>
              simp [FlowContext.foldl_boxes_for_node, FlowContext.foldl_all_boxes,
                List.filter, hb]
  | BlockFlow d b kids =>
      obtain ⟨box⟩ := b
      refine ⟨by simp, ?_, by simp, by simp [FlowContext.kind], ?_⟩
      · intro d' b' kids' h
        cases h
        cases box <;> exact ⟨rfl, rfl⟩
      · cases box with
        | none =>
            intro l hl
            have hl' : l = [] := by
              simpa [FlowContext.iter_all_boxes] using hl.symm
            subst hl'
            exact ⟨rfl, rfl⟩
        | some bx =>
            intro l hl
            have hl' : l = [bx] := by
              simpa [FlowContext.iter_all_boxes] using hl.symm
            subst hl'
            refine ⟨rfl, ?_⟩
            by_cases hb : bx.d.node == node <;>
              simp [FlowContext.foldl_boxes_for_node, FlowContext.foldl_all_boxes,
                List.filter, hb]
  | InlineFlow d i kids =>
      refine ⟨by simp, by simp, ?_, by simp [FlowContext.kind], ?_⟩
      · intro d' i' kids' h
        cases h
        exact ⟨rfl, rfl⟩
      · intro l hl
        have hl' : l = i.boxes := by
          simpa [FlowContext.iter_all_boxes] using hl.symm
        subst hl'
        refine ⟨rfl, ?_⟩
        have hdef : FlowContext.foldl_boxes_for_node (.InlineFlow d i kids) node seed cb =
            .ok (i.boxes.foldl
              (fun acc box => if box.d.node == node then cb acc box else acc) seed) := rfl
        rw [hdef, foldl_node_filter]
  | AbsoluteFlow d kids =>
      refine ⟨by simp, by simp, by simp, ?_, ?_⟩
      · intro _ _ _
        exact ⟨⟨_, rfl⟩, ⟨_, rfl⟩, ⟨_, rfl⟩, ⟨_, rfl⟩⟩
      · intro l hl
        simp [FlowContext.iter_all_boxes] at hl
  | FloatFlow d kids =>
      refine ⟨by simp, by simp, by simp, ?_, ?_⟩
      · intro _ _ _
        exact ⟨⟨_, rfl⟩, ⟨_, rfl⟩, ⟨_, rfl⟩, ⟨_, rfl⟩⟩
      · intro l hl
        simp [FlowContext.iter_all_boxes] at hl
  | InlineBlockFlow d kids =>
      refine ⟨by simp, by simp, by simp, ?_, ?_⟩
      · intro _ _ _
        exact ⟨⟨_, rfl⟩, ⟨_, rfl⟩, ⟨_, rfl⟩, ⟨_, rfl⟩⟩
      · intro l hl
        simp [FlowContext.iter_all_boxes] at hl
  | TableFlow d kids =>
      refine ⟨by simp, by simp, by simp, ?_, ?_⟩
      · intro _ _ _
        exact ⟨⟨_, rfl⟩, ⟨_, rfl⟩, ⟨_, rfl⟩, ⟨_, rfl⟩⟩
      · intro l hl
        simp [FlowContext.iter_all_boxes] at hl

/-- Witness for C7: an inline node with two boxes bound to different document
nodes — the unfiltered helpers visit both in order, the filtered variant
visits exactly the box bound to node 1. -/
theorem box_iteration_spec_witness :
    FlowContext.iter_all_boxes
      (.InlineFlow (FlowData.new 1)
        ⟨[⟨⟨10, 1⟩, 2, 3, false⟩, ⟨⟨11, 2⟩, 4, 5, false⟩]⟩ []) =
      .ok [⟨⟨10, 1⟩, 2, 3, false⟩, ⟨⟨11, 2⟩, 4, 5, false⟩] ∧
    FlowContext.iter_boxes_for_node
      (.InlineFlow (FlowData.new 1)
        ⟨[⟨⟨10, 1⟩, 2, 3, false⟩, ⟨⟨11, 2⟩, 4, 5, false⟩]⟩ []) 1 =
      .ok [⟨⟨10, 1⟩, 2, 3, false⟩] ∧
    (∃ e, FlowContext.iter_all_boxes (.TableFlow (FlowData.new 3) []) = .error e) := by
  have hi := (@box_iteration_spec Nat
    (.InlineFlow (FlowData.new 1)
      ⟨[⟨⟨10, 1⟩, 2, 3, false⟩, ⟨⟨11, 2⟩, 4, 5, false⟩]⟩ []) 1 0 (fun a _ => a)).2.2.1
    _ _ _ rfl
  have hf := ((@box_iteration_spec Nat
    (.InlineFlow (FlowData.new 1)
      ⟨[⟨⟨10, 1⟩, 2, 3, false⟩, ⟨⟨11, 2⟩, 4, 5, false⟩]⟩ []) 1 0 (fun a _ => a)).2.2.2.2
    _ hi.1).1
  have ht := ((@box_iteration_spec Nat
    (.TableFlow (FlowData.new 3) []) 1 0 (fun a _ => a)).2.2.2.1
    (by decide) (by decide) (by decide)).1
  refine ⟨hi.1, ?_, ht⟩
  simpa using hf

/-- The variants that participate in width bubbling and display-list
building in this core. -/
def bubbleKinds : List FlowContextType := [.Flow_Block, .Flow_Inline, .Flow_Root]

/-- C5: `bubble_widths` and `build_display_list_recurse` succeed only on
nodes whose variant is Block, Inline, or Root; invoked on any node of variant
Absolute, Float, InlineBlock, or Table they fail fatally. -/
theorem pass_dispatch_closed (f : FlowContext) (dirty : Rect) (offset : Point2D) :
    ((∃ t, f.bubble_widths = .ok t) → f.kind ∈ bubbleKinds) ∧
    ((∃ l, f.build_display_list_recurse dirty offset = .ok l) → f.kind ∈ bubbleKinds) ∧
    (f.kind ∉ bubbleKinds →
      (∃ e, f.bubble_widths = .error e) ∧
      (∃ e, f.build_display_list_recurse dirty offset = .error e)) := by
  cases f <;>
    simp [FlowContext.bubble_widths, FlowContext.build_display_list_recurse,
      FlowContext.kind, bubbleKinds]

/-- Witness for C5: a Float node is rejected fatally by both passes. -/
theorem pass_dispatch_closed_witness :
    (∃ e, FlowContext.bubble_widths (.FloatFlow (FlowData.new 4) []) = .error e) ∧
    (∃ e, FlowContext.build_display_list_recurse (.FloatFlow (FlowData.new 4) [])
      Au.zero_rect ⟨0, 0⟩ = .error e) :=
  (pass_dispatch_closed (.FloatFlow (FlowData.new 4) []) Au.zero_rect ⟨0, 0⟩).2.2
    (by decide)

/-- `add_child` leaves the parent's stored children equal to the old sequence
with the child appended (also when parent and child are the same reference). -/
theorem add_child_children (s : FlowStore) (p c : FlowRef) :
    ((FlowTree.add_child s p c) p).data.tree.children =
      (s p).data.tree.children ++ [c] := by
  unfold FlowTree.add_child updateStore
  by_cases hpc : p = c <;> simp [hpc]

/-- `add_child` records the back-link: the child's stored parent is the given
parent reference. -/
theorem add_child_parent (s : FlowStore) (p c : FlowRef) :
    ((FlowTree.add_child s p c) c).data.tree.parent = some p := by
  unfold FlowTree.add_child updateStore
  simp

/-- A child walk under the always-true visitor visits every child in order. -/
theorem eachChildGo_all_true (l : List FlowRef) :
    eachChildGo (fun _ => true) l = l := by
  induction l with
  | nil => rfl
  | cons c cs ih => simp [eachChildGo, ih]

/-- A child walk visits the prefix accepted by the visitor and the first
rejected child, then stops. -/
theorem eachChildGo_stop (v : FlowRef → Bool) (c : FlowRef) :
    ∀ (xs ys : List FlowRef), (∀ x ∈ xs, v x = true) → v c = false →
      eachChildGo v (xs ++ c :: ys) = xs ++ [c] := by
  intro xs
  induction xs with
  | nil =>
      intro ys _ hc
      simp [eachChildGo, hc]
  | cons x xs ih =>
      intro ys hxs hc
      have hx : v x = true := hxs x (List.mem_cons_self x xs)
      simp [eachChildGo, hx, ih ys (fun y hy => hxs y (List.mem_cons_of_mem x hy)) hc]

/-- C6: `add_child(p, c)` appends `c` to the end of `p`'s ordered child
sequence and records `c`'s back-link to `p`; a subsequent `each_child(p, v)`
invokes the visitor exactly once on `c`, in insertion order after `c`'s
siblings; and early termination is supported: a visitor that rejects `c`
never reaches a child appended after `c`. -/
theorem add_child_each_child_spec (s : FlowStore) (p c d2 : FlowRef)
    (v : FlowRef → Bool)
    (hnotin : c ∉ (s p).data.tree.children)
    (hv : ∀ x ∈ (s p).data.tree.children, v x = true)
    (hvc : v c = false) :
    ((FlowTree.add_child s p c) p).data.tree.children =
      (s p).data.tree.children ++ [c] ∧
    ((FlowTree.add_child s p c) c).data.tree.parent = some p ∧
    FlowTree.each_child (FlowTree.add_child s p c) p (fun _ => true) =
      (s p).data.tree.children ++ [c] ∧
    (FlowTree.each_child (FlowTree.add_child s p c) p (fun _ => true)).count c = 1 ∧
    FlowTree.each_child (FlowTree.add_child (FlowTree.add_child s p c) p d2) p v =
      (s p).data.tree.children ++ [c] := by
  refine ⟨add_child_children s p c, add_child_parent s p c, ?_, ?_, ?_⟩
  · show eachChildGo _ ((FlowTree.add_child s p c) p).data.tree.children = _
    rw [add_child_children, eachChildGo_all_true]
  · show (eachChildGo _ ((FlowTree.add_child s p c) p).data.tree.children).count c = 1
    rw [add_child_children, eachChildGo_all_true, List.count_append]
    rw [List.count_eq_zero_of_not_mem hnotin]
    simp
  · show eachChildGo v
      ((FlowTree.add_child (FlowTree.add_child s p c) p d2) p).data.tree.children = _
    rw [add_child_children, add_child_children, List.append_assoc]
    exact eachChildGo_stop v c _ _ hv hvc

/-- Witness for C6: in a store where node 0 has no children, adding child 1
then walking the children visits exactly `[1]`; with a visitor rejecting 1,
a later sibling 2 is never visited. -/
theorem add_child_each_child_spec_witness :
    FlowTree.each_child
      (FlowTree.add_child (fun _ => ⟨.Flow_Block, FlowData.new 0⟩) 0 1) 0
      (fun _ => true) = [1] ∧
    FlowTree.each_child
      (FlowTree.add_child
        (FlowTree.add_child (fun _ => ⟨.Flow_Block, FlowData.new 0⟩) 0 1) 0 2) 0
      (fun x => x != 1) = [1] := by
  have h := add_child_each_child_spec (fun _ => ⟨.Flow_Block, FlowData.new 0⟩) 0 1 2
    (fun x => x != 1) (by simp [FlowData.new, tree.empty])
    (by simp [FlowData.new, tree.empty]) (by decide)
  refine ⟨?_, ?_⟩
  · have h3 := h.2.2.1
    simpa [FlowData.new, tree.empty] using h3
  · have h5 := h.2.2.2.2
    simpa [FlowData.new, tree.empty] using h5

/-- A well-formed render box: non-negative intrinsic minimum width, at most
the intrinsic preferred width. -/
def boxOk (b : RenderBox) : Prop :=
  0 ≤ b.boxMinWidth ∧ b.boxMinWidth ≤ b.boxPrefWidth

/-- Every render box owned anywhere in the tree is well formed. -/
def BoxesOk (t : FlowContext) : Prop :=
  ∀ n ∈ t.allNodes, ∀ b ∈ n.nodeBoxes, boxOk b

/-- Every node of the tree satisfies `min_width ≤ pref_width`. -/
def WidthsOk (t : FlowContext) : Prop :=
  ∀ n ∈ t.allNodes, n.d.min_width ≤ n.d.pref_width

/-- `allNodes` unfolds to the node followed by the nodes of its children. -/
theorem allNodes_eq (t : FlowContext) :
    t.allNodes = t :: allNodesL t.kids := by
  cases t <;> simp [FlowContext.allNodes, FlowContext.kids]

/-- Every tree is among its own nodes. -/
theorem self_mem_allNodes (t : FlowContext) : t ∈ t.allNodes := by
  rw [allNodes_eq]
  exact List.mem_cons_self _ _

/-- A node of a member of a forest is a node of the forest. -/
theorem mem_allNodesL (ks : List FlowContext) (k n : FlowContext)
    (hk : k ∈ ks) (hn : n ∈ k.allNodes) : n ∈ allNodesL ks := by
  induction ks with
  | nil => cases hk
  | cons x xs ih =>
      simp only [allNodesL]
      rcases List.mem_cons.mp hk with h | h
      · subst h
        exact List.mem_append_left _ hn
      · exact List.mem_append_right _ (ih h)

/-- A node of a forest is a node of one of its members. -/
theorem mem_allNodesL_inv (ks : List FlowContext) (n : FlowContext)
    (hn : n ∈ allNodesL ks) : ∃ k ∈ ks, n ∈ k.allNodes := by
  induction ks with
  | nil => simp [allNodesL] at hn
  | cons x xs ih =>
      simp only [allNodesL] at hn
      rcases List.mem_append.mp hn with h | h
      · exact ⟨x, List.mem_cons_self _ _, h⟩
      · obtain ⟨k, hk, hkn⟩ := ih h
        exact ⟨k, List.mem_cons_of_mem _ hk, hkn⟩

/-- Box well-formedness restricts to each child. -/
theorem BoxesOk_kid (t : FlowContext) (hb : BoxesOk t) :
    ∀ k ∈ t.kids, BoxesOk k := by
  intro k hk n hn b hbb
  apply hb n _ b hbb
  rw [allNodes_eq]
  exact List.mem_cons_of_mem _ (mem_allNodesL t.kids k n hk hn)

/-- Folding `max` over pointwise-dominated values from dominated seeds stays
dominated. -/
theorem foldl_max_mono {α : Type} (f g : α → Au) :
    ∀ (ks : List α), (∀ k ∈ ks, f k ≤ g k) →
      ∀ a b : Au, a ≤ b →
        (ks.map f).foldl max a ≤ (ks.map g).foldl max b := by
  intro ks
  induction ks with
  | nil =>
      intro _ a b hab
      simpa using hab
  | cons k ks ih =>
      intro h a b hab
      simp only [List.map_cons, List.foldl_cons]
      exact ih (fun x hx => h x (List.mem_cons_of_mem _ hx)) _ _
        (max_le_max hab (h k (List.mem_cons_self _ _)))

/-- `maxOf` over pointwise-dominated projections is dominated. -/
theorem maxOf_map_mono (f g : FlowContext → Au) (ks : List FlowContext)
    (h : ∀ k ∈ ks, f k ≤ g k) : maxOf (ks.map f) ≤ maxOf (ks.map g) :=
  foldl_max_mono f g ks h 0 0 le_rfl

/-- The invariant of the inline accumulator: the current line and the
completed lines are non-negative, and the minimum so far is at most the best
preferred width seen (completed lines or the current line). -/
def accOk (acc : InlineAcc) : Prop :=
  0 ≤ acc.linePref ∧ 0 ≤ acc.prefW ∧ acc.minW ≤ max acc.prefW acc.linePref

/-- One inline step on a well-formed box preserves the accumulator
invariant. -/
theorem inlineStep_preserves (acc : InlineAcc) (b : RenderBox)
    (hb : boxOk b) (h : accOk acc) : accOk (inlineStep acc b) := by
  obtain ⟨h1, h2, h3⟩ := h
  obtain ⟨hb1, hb2⟩ := hb
  have hp : (0 : Au) ≤ b.boxPrefWidth := hb1.trans hb2
  by_cases hbr : b.forcesBreak
  · simp only [accOk, inlineStep, if_pos hbr]
    refine ⟨le_refl 0, le_max_of_le_left h2, max_le ?_ ?_⟩
    · exact (h3.trans (max_le_max (le_refl acc.prefW)
        (le_add_of_nonneg_right hp))).trans (le_max_left _ _)
    · exact ((hb2.trans (le_add_of_nonneg_left h1)).trans
        (le_max_right acc.prefW _)).trans (le_max_left _ _)
  · simp only [accOk, inlineStep, if_neg hbr]
    refine ⟨add_nonneg h1 hp, h2, max_le ?_ ?_⟩
    · exact h3.trans (max_le_max (le_refl acc.prefW) (le_add_of_nonneg_right hp))
    · exact (hb2.trans (le_add_of_nonneg_left h1)).trans (le_max_right acc.prefW _)

/-- Folding inline steps over well-formed boxes preserves the accumulator
invariant. -/
theorem foldl_inlineStep_ok :
    ∀ (boxes : List RenderBox) (acc : InlineAcc),
      (∀ b ∈ boxes, boxOk b) → accOk acc → accOk (boxes.foldl inlineStep acc) := by
  intro boxes
  induction boxes with
  | nil =>
      intro acc _ h
      simpa using h
  | cons b bs ih =>
      intro acc hbx h
      simp only [List.foldl_cons]
      exact ih _ (fun x hx => hbx x (List.mem_cons_of_mem _ hx))
        (inlineStep_preserves acc b (hbx b (List.mem_cons_self _ _)) h)

/-- Inline width bubbling over well-formed boxes yields
`min_width ≤ pref_width`. -/
theorem inlineBubbleWidths_le (boxes : List RenderBox)
    (hb : ∀ b ∈ boxes, boxOk b) :
    (inlineBubbleWidths boxes).1 ≤ (inlineBubbleWidths boxes).2 := by
  have h := foldl_inlineStep_ok boxes ⟨0, 0, 0⟩ hb
    (by refine ⟨le_refl 0, le_refl 0, ?_⟩; simp)
  exact h.2.2

mutual

/-- After a successful `bubble_widths` over well-formed boxes, every node of
the resulting tree satisfies `min_width ≤ pref_width`. -/
theorem bubble_widths_ok_aux (t t' : FlowContext)
    (hb : BoxesOk t) (h : t.bubble_widths = .ok t') : WidthsOk t' := by
  cases t with
  | BlockFlow d b kids =>
      simp only [FlowContext.bubble_widths] at h
      cases hkl : bubble_list kids with
      | error e =>
          rw [hkl] at h
          exact Except.noConfusion h
      | ok kids' =>
          rw [hkl] at h
          simp only [Except.ok.injEq] at h
          subst h
          have hkidsOk : ∀ k' ∈ kids', WidthsOk k' :=
            bubble_list_ok_aux kids kids' (BoxesOk_kid _ hb) hkl
          have hpoint : ∀ k' ∈ kids', k'.d.min_width ≤ k'.d.pref_width :=
            fun k' hk' => hkidsOk k' hk' k' (self_mem_allNodes k')
          have hbox : optBoxMinWidth b.box ≤ optBoxPrefWidth b.box := by
            cases hbx : b.box with
            | none => simp [optBoxMinWidth, optBoxPrefWidth]
            | some bx =>
                have hok : boxOk bx :=
                  hb (.BlockFlow d b kids) (self_mem_allNodes _) bx
                    (by simp [FlowContext.nodeBoxes, hbx])
                simpa [optBoxMinWidth, optBoxPrefWidth] using hok.2
          intro n hn
          rw [allNodes_eq] at hn
          rcases List.mem_cons.mp hn with hn | hn
          · subst hn
            exact add_le_add
              (maxOf_map_mono (fun k => k.d.min_width) (fun k => k.d.pref_width)
                kids' hpoint) hbox
          · obtain ⟨k', hk', hnk⟩ := mem_allNodesL_inv _ n hn
            exact hkidsOk k' hk' n hnk
  | InlineFlow d i kids =>
      simp only [FlowContext.bubble_widths] at h
      cases hkl : bubble_list kids with
      | error e =>
          rw [hkl] at h
          exact Except.noConfusion h
      | ok kids' =>
          rw [hkl] at h
          simp only [Except.ok.injEq] at h
          subst h
          have hkidsOk : ∀ k' ∈ kids', WidthsOk k' :=
            bubble_list_ok_aux kids kids' (BoxesOk_kid _ hb) hkl
          have hboxes : ∀ bx ∈ i.boxes, boxOk bx :=
            fun bx hbx => hb (.InlineFlow d i kids) (self_mem_allNodes _) bx hbx
          intro n hn
          rw [allNodes_eq] at hn
          rcases List.mem_cons.mp hn with hn | hn
          · subst hn
            exact inlineBubbleWidths_le i.boxes hboxes
          · obtain ⟨k', hk', hnk⟩ := mem_allNodesL_inv _ n hn
            exact hkidsOk k' hk' n hnk
  | RootFlow d r kids =>
      simp only [FlowContext.bubble_widths] at h
      cases hkl : bubble_list kids with
      | error e =>
          rw [hkl] at h
          exact Except.noConfusion h
      | ok kids' =>
          rw [hkl] at h
          simp only [Except.ok.injEq] at h
          subst h
          have hkidsOk : ∀ k' ∈ kids', WidthsOk k' :=
            bubble_list_ok_aux kids kids' (BoxesOk_kid _ hb) hkl
          intro n hn
          rw [allNodes_eq] at hn
          rcases List.mem_cons.mp hn with hn | hn
          · subst hn
            cases kids' with
            | nil => simp [rootAdopt, FlowContext.d]
            | cons c rest =>
                have := hkidsOk c (List.mem_cons_self _ _) c (self_mem_allNodes c)
                simpa [rootAdopt, FlowContext.d] using this
          · obtain ⟨k', hk', hnk⟩ := mem_allNodesL_inv _ n hn
            exact hkidsOk k' hk' n hnk
  | AbsoluteFlow d kids =>
      simp only [FlowContext.bubble_widths] at h
      exact Except.noConfusion h
  | FloatFlow d kids =>
      simp only [FlowContext.bubble_widths] at h
      exact Except.noConfusion h
  | InlineBlockFlow d kids =>
      simp only [FlowContext.bubble_widths] at h
      exact Except.noConfusion h
  | TableFlow d kids =>
      simp only [FlowContext.bubble_widths] at h
      exact Except.noConfusion h
termination_by sizeOf t

/-- After a successful `bubble_list` over well-formed boxes, every resulting
child tree satisfies the width invariant everywhere. -/
theorem bubble_list_ok_aux (ks ks' : List FlowContext)
    (hb : ∀ k ∈ ks, BoxesOk k) (h : bubble_list ks = .ok ks') :
    ∀ k' ∈ ks', WidthsOk k' := by
  cases ks with
  | nil =>
      simp only [bubble_list, Except.ok.injEq] at h
      subst h
      intro k' hk'
      cases hk'
  | cons k ks =>
      simp only [bubble_list] at h
      cases hk : k.bubble_widths with
      | error e =>
          rw [hk] at h
          exact Except.noConfusion h
      | ok khd =>
          rw [hk] at h
          cases hks : bubble_list ks with
          | error e =>
              rw [hks] at h
              exact Except.noConfusion h
          | ok ktl =>
              rw [hks] at h
              simp only [Except.ok.injEq] at h
              subst h
              intro k' hk'
              rcases List.mem_cons.mp hk' with hh | hh
              · subst hh
                exact bubble_widths_ok_aux k k'
                  (hb k (List.mem_cons_self _ _)) hk
              · exact bubble_list_ok_aux ks ktl
                  (fun x hx => hb x (List.mem_cons_of_mem _ hx)) hks k' hh
termination_by sizeOf ks

end

/-- C1: after `bubble_widths` has run successfully on a tree whose render
boxes all have well-formed intrinsic widths (`0 ≤ min ≤ pref`), every node in
the resulting tree satisfies `min_width ≤ pref_width`. -/
theorem bubble_widths_min_le_pref (t t' : FlowContext)
    (hboxes : BoxesOk t) (h : t.bubble_widths = .ok t') :
    ∀ n ∈ t'.allNodes, n.d.min_width ≤ n.d.pref_width :=
  bubble_widths_ok_aux t t' hboxes h

/-- Witness for C1: bubbling a childless Root with no owned box succeeds and
the resulting root satisfies the width invariant. -/
theorem bubble_widths_min_le_pref_witness :
    (FlowContext.RootFlow (FlowData.new 0) ⟨none⟩ [] : FlowContext).d.min_width ≤
      (FlowContext.RootFlow (FlowData.new 0) ⟨none⟩ [] : FlowContext).d.pref_width := by
  have hboxes : BoxesOk (FlowContext.RootFlow (FlowData.new 0) ⟨none⟩ []) := by
    intro n hn b hbb
    rw [allNodes_eq] at hn
    rcases List.mem_cons.mp hn with hn | hn
    · subst hn
      simp [FlowContext.nodeBoxes] at hbb
    · simp [FlowContext.kids, allNodesL] at hn
  have heq : FlowContext.bubble_widths (.RootFlow (FlowData.new 0) ⟨none⟩ []) =
      .ok (.RootFlow (FlowData.new 0) ⟨none⟩ []) := by
    simp [FlowContext.bubble_widths, bubble_list, rootAdopt, FlowData.new,
      Au.zero_rect, tree.empty]
  exact bubble_widths_min_le_pref _ _ hboxes heq _ (self_mem_allNodes _)
